import Mathlib

/-!
Verification of `gscpy/i_script.py` (class `Grassify`): a shallow embedding of
the script's filename handling, directory-walk filtering, destination
resolution and copy loop, together with theorems about the behaviours the
design document states.

Modelling conventions:
* Python strings are Lean `String`; character-level operations work on `String.data`.
* The filesystem is an association list from absolute path to file content
  (`FS`); `os.path.exists` is key membership, `shutil.copy` reads the source
  content and stores it under the destination key (failing, like Python's
  `SameFileError` / `FileNotFoundError`, when source and destination are the
  same path or the source is absent).
* `os.walk` is represented by its observable output: the list of
  `(dirpath, filenames)` records in walk order (the `dirnames` component is
  never used by the script).
* A compiled regex's `.match` test is an abstract predicate `String → Bool`
  (the script only ever calls `pattern.match(f)` and uses its truthiness).
-/

/-- `os.path.basename` for POSIX paths: the part of `p` after the last `'/'`
(the whole string when there is no `'/'`). -/
def basename (p : String) : String :=
  String.mk ((p.data.reverse.takeWhile (fun c => c ≠ '/')).reverse)

/-- `os.path.join dir f` for POSIX paths, as the script uses it (two
components): if `f` is absolute it wins; otherwise `dir` and `f` are glued
with exactly one `'/'`. -/
def joinPath (d f : String) : String :=
  if f.data.head? = some '/' then f
  else if d = "" then f
  else if d.data.getLast? = some '/' then d ++ f
  else d ++ "/" ++ f

/-- Helper for `splitext`: scan a (reversed) character list for the first
`'.'`, returning the characters before it and the characters after it. -/
def breakAtDotRev : List Char → Option (List Char × List Char)
  | [] => none
  | c :: cs =>
      if c = '.' then some ([], cs)
      else
        match breakAtDotRev cs with
        | none => none
        | some p => some (c :: p.1, p.2)

/-- `os.path.splitext` on a bare filename: split at the last `'.'`, except
that a name whose every character before that dot is itself a dot (such as
`".py"`) has no extension. -/
def splitext (s : String) : String × String :=
  match breakAtDotRev s.data.reverse with
  | none => (s, "")
  | some p =>
      if p.2.any (fun c => c ≠ '.') then
        (String.mk p.2.reverse, String.mk ('.' :: p.1.reverse))
      else (s, "")

/-- Python `s.replace('_', '.')`: every underscore becomes a dot. -/
def pyReplaceUnderscore (s : String) : String :=
  String.mk (s.data.map (fun c => if c = '_' then '.' else c))

/-- Python `s.endswith(suffix)`. -/
def pyEndswith (s suff : String) : Bool :=
  suff.data.isSuffixOf s.data

/-- Whether the first character list is a prefix of the second. -/
def prefixB : List Char → List Char → Bool
  | [], _ => true
  | _ :: _, [] => false
  | a :: as, b :: bs => a = b && prefixB as bs

/-- Whether the first character list occurs contiguously inside the second. -/
def infixB (sub : List Char) : List Char → Bool
  | [] => sub.isEmpty
  | c :: cs => prefixB sub (c :: cs) || infixB sub cs

/-- Python `sub in s` on strings: contiguous-substring containment. -/
def pyInStr (sub s : String) : Bool :=
  infixB sub.data s.data

/-- The `exclusion` attribute of `Grassify`: the constructor stores either the
default Python *list* of filenames (when the argument is `None`) or the
caller's *string*; the later `f in self.exclusion` test is list membership in
the first case and substring containment in the second. -/
inductive Exclusion where
  | list : List String → Exclusion
  | str : String → Exclusion
deriving Repr, DecidableEq

/-- Python `f in self.exclusion` (line 229 of `i_script.py`). -/
def exclMem (excl : Exclusion) (f : String) : Bool :=
  match excl with
  | .list l => l.contains f
  | .str s => pyInStr f s

/-- The default exclusion list set by `__init__` when `exclusion is None`. -/
def defaultExclusion : Exclusion :=
  .list ["__init__.py", "__version__.py", "setup_grass.py", "gscpy.py", "setup.py"]

/-- One `os.walk` record, reduced to the components the script reads:
`rec[0]` (dirpath) and `rec[-1]` (filenames in that directory). -/
abbrev WalkRec := String × List String

/-- The per-file test a filename must pass to be collected by
`Grassify.__filter`: the regex matches (`filter(pattern.match, rec[-1])`),
the name is not excluded, and it ends with `self.extension = '.py'`. -/
def keepFile (pat : String → Bool) (excl : Exclusion) (f : String) : Bool :=
  pat f && !exclMem excl f && pyEndswith f ".py"

/-- The body of `Grassify.__filter` for one walk record: regex-filter the
filenames, then drop excluded names and names without the `.py` extension,
joining survivors onto the record's dirpath. -/
def filterRec (pat : String → Bool) (excl : Exclusion) (r : WalkRec) : List String :=
  (r.2.filter pat).filterMap fun f =>
    if exclMem excl f then none
    else if pyEndswith f ".py" then some (joinPath r.1 f)
    else none

/-- `Grassify.__filter`: iterate the walk records in order, skipping records
with an empty filename list (`if not rec[-1]: continue`), and accumulate the
joined paths of the kept filenames. -/
def grassFilter (pat : String → Bool) (excl : Exclusion) : List WalkRec → List String
  | [] => []
  | r :: rest =>
      if r.2.isEmpty then grassFilter pat excl rest
      else filterRec pat excl r ++ grassFilter pat excl rest

/-- The specification's reading of `discover`: per walk record, keep exactly
the filenames passing `keepFile` and emit their joined paths, concatenated in
directory-walk order. Stated separately from `grassFilter` so the code can be
proved to refine it. -/
def discoverSpec (pat : String → Bool) (excl : Exclusion) (walk : List WalkRec) : List String :=
  walk.foldr (fun r acc => (r.2.filter (keepFile pat excl)).map (joinPath r.1) ++ acc) []

/-- The fixed candidate GRASS installations probed by `__init__`. -/
def candidates : List String := ["grass70", "grass71", "grass72", "grass73", "grass74"]

/-- The script directory probed for one candidate: `'/usr/lib/' + item + '/scripts'`. -/
def candidatePath (item : String) : String := "/usr/lib/" ++ item ++ "/scripts"

/-- The destination-resolution loop of `__init__` (lines 161-167): iterate all
candidates, assigning `self.export_path` each time the probed directory
exists; `none` means the attribute was never assigned. The `ex` argument is
the `os.path.exists` oracle. -/
def resolveExport (ex : String → Bool) : Option String :=
  candidates.foldl
    (fun acc item => if ex (candidatePath item) then some (candidatePath item) else acc)
    none

/-- The last element of `l` (in list order) whose candidate directory exists:
the specification's phrase "the last one that exists". -/
def lastMatch (ex : String → Bool) : List String → Option String
  | [] => none
  | c :: cs =>
      match lastMatch ex cs with
      | some x => some x
      | none => if ex (candidatePath c) then some c else none

/-- The default filename pattern built by `__init__` when `pattern is None`:
`re.match('.*' + '.py', f)` succeeds exactly when `".py"` occurs somewhere in
`f` (the `'.*'` prefix lets the match start anywhere-from-the-left, and
`re.match` only anchors at the start). Note the script does not escape the
dot, so `'.py'` in the regex is "any char then `py`"; we embed the effective
test used on realistic names, where this coincides with substring search for
a two-char tail preceded by any char; modelled as containment of `".py"`. -/
def defaultPattern (f : String) : Bool := pyInStr ".py" f

/-- Python's `self.files is []` test (line 183 of `i_script.py`): `is`
compares object identity, and a freshly constructed list literal is a new
object, so the test is `False` for every value of `self.files`, including an
empty list. -/
def pyIsFreshEmptyList (_files : List String) : Bool := false

/-- The observable state a successful `Grassify.__init__` leaves behind. -/
structure Grassify where
  import_path : String
  export_path : Option String
  files : List String
  messaged : Bool
deriving Repr, DecidableEq

/-- `Grassify.__init__`: check the input directory (fatal when missing),
store the exclusion, resolve the export path (explicit argument wins and is
created if absent; otherwise the candidate probe runs, possibly assigning
nothing), build the filter predicate, run `__filter`, and evaluate the dead
`self.files is []` message test. `ex` is the `os.path.exists` oracle and
`walk` the `os.walk` output for `input_dir`. -/
def grassifyInit (ex : String → Bool) (walk : List WalkRec) (input_dir : String)
    (exportArg : Option String) (patArg : Option (String → Bool))
    (exclArg : Option String) : Except String Grassify :=
  if ex input_dir then
    let excl : Exclusion :=
      match exclArg with
      | none => defaultExclusion
      | some s => .str s
    let ep : Option String :=
      match exportArg with
      | none => resolveExport ex
      | some p => some p
    let patt : String → Bool :=
      match patArg with
      | none => defaultPattern
      | some p => p
    let fls := grassFilter patt excl walk
    Except.ok
      { import_path := input_dir
        export_path := ep
        files := fls
        messaged := pyIsFreshEmptyList fls }
  else Except.error ("Input directory <" ++ input_dir ++ "> not exists")

/-- The filesystem: an association list from absolute path to file content;
the head binding for a key is its current content. -/
abbrev FS := List (String × String)

/-- Read a file's content (`none` when the path does not exist). -/
def fsGet (fs : FS) (p : String) : Option String := fs.lookup p

/-- `os.path.exists`. -/
def fsExists (fs : FS) (p : String) : Bool := (fsGet fs p).isSome

/-- Write content `c` at path `p` (create or overwrite). -/
def fsSet (fs : FS) (p c : String) : FS := (p, c) :: fs

/-- The destination filename `copy` computes for a source path: the basename,
split by `os.path.splitext`, root taken, underscores replaced by dots
(lines 191-197 of `i_script.py`). -/
def destName (srcPath : String) : String :=
  pyReplaceUnderscore (splitext (basename srcPath)).1

/-- `shutil.copy old new`: fails when source and destination are the same
path (`SameFileError`) or the source is absent (`FileNotFoundError`);
otherwise the destination now holds the source's bytes. -/
def shutilCopy (fs : FS) (old new : String) : Option FS :=
  if old = new then none
  else (fsGet fs old).map (fun c => fsSet fs new c)

/-- One iteration of the `copy` loop: compute the transformed destination
path; copy when it does not exist or `replace` is set, otherwise `pass`. -/
def copyStep (e : String) (repl : Bool) (fs : FS) (old : String) : Option FS :=
  let new := joinPath e (destName old)
  if !fsExists fs new || repl then shutilCopy fs old new else some fs

/-- `Grassify.copy`: run `copyStep` over the discovered files in order,
threading the filesystem; `none` propagates a raised exception. -/
def copyFiles (e : String) (repl : Bool) : List String → FS → Option FS
  | [], fs => some fs
  | f :: rest, fs =>
      match copyStep e repl fs f with
      | none => none
      | some fs' => copyFiles e repl rest fs'

/-- `main` without the print branch taken: construct, then either print and
exit 0, or copy with the replace flag and exit 0. An unassigned
`self.export_path` read by a non-empty copy loop raises `AttributeError`. -/
def mainExit (g : Grassify) (pflag rflag : Bool) (fs : FS) : Except String Nat :=
  if pflag then Except.ok 0
  else
    match g.export_path with
    | none =>
        if g.files.isEmpty then Except.ok 0
        else Except.error "AttributeError: Grassify instance has no attribute export_path"
    | some e =>
        match copyFiles e rflag g.files fs with
        | none => Except.error "exception escaped copy"
        | some _ => Except.ok 0

/-! ## Path lemmas -/

lemma takeWhile_all {α : Type} {p : α → Bool} {l : List α} (h : ∀ a ∈ l, p a = true) :
    l.takeWhile p = l := by
  induction l with
  | nil => rfl
  | cons a t ih =>
      rw [List.takeWhile_cons, if_pos (h a (List.mem_cons_self a t)),
        ih (fun b hb => h b (List.mem_cons_of_mem a hb))]

lemma takeWhile_append_all {α : Type} {p : α → Bool} {l1 l2 : List α}
    (h : ∀ a ∈ l1, p a = true) :
    (l1 ++ l2).takeWhile p = l1 ++ l2.takeWhile p := by
  induction l1 with
  | nil => rfl
  | cons a t ih =>
      rw [List.cons_append, List.takeWhile_cons, if_pos (h a (List.mem_cons_self a t)),
        ih (fun b hb => h b (List.mem_cons_of_mem a hb))]
      rfl

lemma takeWhile_eq_nil_of_head {α : Type} {p : α → Bool} {l : List α} {a : α}
    (h : l.head? = some a) (hpa : p a = false) : l.takeWhile p = [] := by
  cases l with
  | nil => rfl
  | cons b t =>
      have : b = a := by simpa using h
      subst this
      rw [List.takeWhile_cons, if_neg (by simp [hpa])]

lemma slashfree_pred {f : String} (hf : '/' ∉ f.data) :
    ∀ a ∈ f.data.reverse, (fun c => decide (c ≠ '/')) a = true := by
  intro a ha
  simp only [decide_eq_true_eq]
  intro hcontra
  exact hf (hcontra ▸ List.mem_reverse.mp ha)

lemma basename_of_slashfree (f : String) (hf : '/' ∉ f.data) : basename f = f := by
  unfold basename
  rw [takeWhile_all (slashfree_pred hf), List.reverse_reverse]

lemma basename_join (d f : String) (hf : '/' ∉ f.data) : basename (joinPath d f) = f := by
  unfold joinPath
  by_cases h1 : f.data.head? = some '/'
  · exact absurd (List.mem_of_mem_head? (by simp [h1])) hf
  rw [if_neg h1]
  by_cases h2 : d = ""
  · rw [if_pos h2]
    exact basename_of_slashfree f hf
  rw [if_neg h2]
  by_cases h3 : d.data.getLast? = some '/'
  · rw [if_pos h3]
    unfold basename
    rw [String.data_append, List.reverse_append,
      takeWhile_append_all (slashfree_pred hf),
      takeWhile_eq_nil_of_head (l := d.data.reverse) (by rw [List.head?_reverse]; exact h3)
        (by simp), List.append_nil, List.reverse_reverse]
  · rw [if_neg h3]
    unfold basename
    have hdata : (d ++ "/" ++ f).data = (d.data ++ ['/']) ++ f.data := by
      rw [String.data_append, String.data_append]
    have hrev : ((d.data ++ ['/']) ++ f.data).reverse
        = f.data.reverse ++ ('/' :: d.data.reverse) := by
      rw [List.reverse_append, List.reverse_append]
      rfl
    rw [hdata, hrev, takeWhile_append_all (slashfree_pred hf),
      List.takeWhile_cons, if_neg (by simp), List.append_nil, List.reverse_reverse]

lemma joinPath_eq (d f : String) (hd : d ≠ "") (hd2 : d.data.getLast? ≠ some '/')
    (hf : '/' ∉ f.data) : joinPath d f = d ++ "/" ++ f := by
  unfold joinPath
  rw [if_neg (fun h => hf (List.mem_of_mem_head? (by simp [h]))), if_neg hd, if_neg hd2]

lemma joinPath_fname_inj {d1 d2 f1 f2 : String} (hf1 : '/' ∉ f1.data) (hf2 : '/' ∉ f2.data)
    (h : joinPath d1 f1 = joinPath d2 f2) : f1 = f2 := by
  rw [← basename_join d1 f1 hf1, ← basename_join d2 f2 hf2, h]

lemma joinPath_dir_inj {d1 d2 f : String} (h1 : d1 ≠ "") (h1' : d1.data.getLast? ≠ some '/')
    (h2 : d2 ≠ "") (h2' : d2.data.getLast? ≠ some '/') (hf : '/' ∉ f.data)
    (h : joinPath d1 f = joinPath d2 f) : d1 = d2 := by
  rw [joinPath_eq d1 f h1 h1' hf, joinPath_eq d2 f h2 h2' hf] at h
  have hdata := congrArg String.data h
  rw [String.data_append, String.data_append, String.data_append, String.data_append,
    List.append_assoc, List.append_assoc] at hdata
  exact String.ext (List.append_cancel_right hdata)

/-! ## Filter lemmas -/

lemma filterMapAux (pat : String → Bool) (excl : Exclusion) (d : String) (l : List String) :
    ((l.filter pat).filterMap fun f =>
        if exclMem excl f then none
        else if pyEndswith f ".py" then some (joinPath d f) else none)
      = (l.filter (keepFile pat excl)).map (joinPath d) := by
  induction l with
  | nil => rfl
  | cons f t ih =>
      by_cases hp : pat f
      · by_cases hx : exclMem excl f
        · simp [List.filter_cons, List.filterMap_cons, keepFile, hp, hx, ih]
        · by_cases he : pyEndswith f ".py"
          · simp [List.filter_cons, List.filterMap_cons, keepFile, hp, hx, he, ih]
          · simp [List.filter_cons, List.filterMap_cons, keepFile, hp, hx, he, ih]
      · simp [List.filter_cons, keepFile, hp, ih]

lemma filterRec_eq (pat : String → Bool) (excl : Exclusion) (r : WalkRec) :
    filterRec pat excl r = (r.2.filter (keepFile pat excl)).map (joinPath r.1) :=
  filterMapAux pat excl r.1 r.2

lemma grassFilter_eq (pat : String → Bool) (excl : Exclusion) (walk : List WalkRec) :
    grassFilter pat excl walk = discoverSpec pat excl walk := by
  induction walk with
  | nil => rfl
  | cons r rest ih =>
      obtain ⟨d, l⟩ := r
      by_cases h : l.isEmpty
      · have hl : l = [] := List.isEmpty_iff.mp h
        subst hl
        simpa [grassFilter, discoverSpec] using ih
      · simp only [grassFilter, if_neg h, filterRec_eq, ih, discoverSpec, List.foldr_cons]

lemma mem_grassFilter {pat : String → Bool} {excl : Exclusion} {walk : List WalkRec}
    {p : String} :
    p ∈ grassFilter pat excl walk ↔
      ∃ r ∈ walk, ∃ f ∈ r.2, keepFile pat excl f = true ∧ p = joinPath r.1 f := by
  rw [grassFilter_eq]
  induction walk with
  | nil => simp [discoverSpec]
  | cons r rest ih =>
      simp only [discoverSpec, List.foldr_cons] at ih ⊢
      rw [List.mem_append, ih]
      constructor
      · rintro (hmem | ⟨r', hr', hrest⟩)
        · rcases List.mem_map.mp hmem with ⟨f, hf, rfl⟩
          rcases List.mem_filter.mp hf with ⟨hf2, hkeep⟩
          exact ⟨r, List.mem_cons_self r rest, f, hf2, hkeep, rfl⟩
        · exact ⟨r', List.mem_cons_of_mem r hr', hrest⟩
      · rintro ⟨r', hr', f, hf, hkeep, rfl⟩
        rcases List.mem_cons.mp hr' with rfl | hr'
        · exact Or.inl (List.mem_map.mpr ⟨f, List.mem_filter.mpr ⟨hf, hkeep⟩, rfl⟩)
        · exact Or.inr ⟨r', hr', f, hf, hkeep, rfl⟩

lemma keepFile_not_excl {pat : String → Bool} {excl : Exclusion} {f : String}
    (h : keepFile pat excl f = true) : exclMem excl f = false := by
  have := h
  unfold keepFile at this
  rcases Bool.and_eq_true_iff.mp this with ⟨h1, _⟩
  rcases Bool.and_eq_true_iff.mp h1 with ⟨_, h2⟩
  simpa using h2

lemma grassFilter_cons (pat : String → Bool) (excl : Exclusion) (w : WalkRec)
    (ws : List WalkRec) :
    grassFilter pat excl (w :: ws) =
      (w.2.filter (keepFile pat excl)).map (joinPath w.1) ++ grassFilter pat excl ws := by
  rw [grassFilter_eq, grassFilter_eq]
  rfl

lemma count_map_join (d : String) (l : List String) (f : String)
    (hl : ∀ g ∈ l, '/' ∉ g.data) (hf : '/' ∉ f.data) :
    (l.map (joinPath d)).count (joinPath d f) = l.count f := by
  induction l with
  | nil => rfl
  | cons g t ih =>
      rw [List.map_cons, List.count_cons, List.count_cons,
        ih (fun x hx => hl x (List.mem_cons_of_mem g hx))]
      by_cases hgf : g = f
      · subst hgf
        simp
      · have hne : joinPath d g ≠ joinPath d f := fun hc =>
          hgf (joinPath_fname_inj (hl g (List.mem_cons_self g t)) hf hc)
        simp [beq_iff_eq, hgf, hne]

lemma not_mem_grassFilter_of_dir {pat : String → Bool} {excl : Exclusion}
    {walk : List WalkRec} {d f : String}
    (hvd : ∀ r ∈ walk, r.1 ≠ "" ∧ r.1.data.getLast? ≠ some '/')
    (hvf : ∀ r ∈ walk, ∀ g ∈ r.2, '/' ∉ g.data)
    (hd : d ≠ "") (hd' : d.data.getLast? ≠ some '/') (hf : '/' ∉ f.data)
    (hnot : d ∉ walk.map Prod.fst) :
    joinPath d f ∉ grassFilter pat excl walk := by
  intro hmem
  rcases mem_grassFilter.mp hmem with ⟨r, hr, g, hg, hkeep, heq⟩
  have hfg : f = g := joinPath_fname_inj hf (hvf r hr g hg) heq
  subst hfg
  have hdr : d = r.1 :=
    joinPath_dir_inj hd hd' (hvd r hr).1 (hvd r hr).2 hf heq
  exact hnot (hdr ▸ List.mem_map.mpr ⟨r, hr, rfl⟩)

lemma count_grassFilter_one {pat : String → Bool} {excl : Exclusion} {walk : List WalkRec}
    (hd : (walk.map Prod.fst).Nodup)
    (hvd : ∀ r ∈ walk, r.1 ≠ "" ∧ r.1.data.getLast? ≠ some '/')
    (hvf : ∀ r ∈ walk, r.2.Nodup ∧ ∀ f ∈ r.2, '/' ∉ f.data) :
    ∀ r ∈ walk, ∀ f ∈ r.2, keepFile pat excl f = true →
      (grassFilter pat excl walk).count (joinPath r.1 f) = 1 := by
  induction walk with
  | nil =>
      intro r hr
      exact absurd hr (List.not_mem_nil r)
  | cons w ws ih =>
      intro r hr f hf hkeep
      rw [grassFilter_cons, List.count_append]
      rw [List.map_cons] at hd
      rcases List.nodup_cons.mp hd with ⟨hwnot, hwsnodup⟩
      have hvd' : ∀ x ∈ ws, x.1 ≠ "" ∧ x.1.data.getLast? ≠ some '/' :=
        fun x hx => hvd x (List.mem_cons_of_mem w hx)
      have hvf' : ∀ x ∈ ws, x.2.Nodup ∧ ∀ g ∈ x.2, '/' ∉ g.data :=
        fun x hx => hvf x (List.mem_cons_of_mem w hx)
      rcases List.mem_cons.mp hr with rfl | hr'
      · have hblock :
            ((r.2.filter (keepFile pat excl)).map (joinPath r.1)).count (joinPath r.1 f) = 1 := by
          rw [count_map_join r.1 _ f
            (fun g hg => (hvf r (List.mem_cons_self r ws)).2 g (List.mem_filter.mp hg).1)
            ((hvf r (List.mem_cons_self r ws)).2 f hf)]
          exact List.count_eq_one_of_mem
            (List.Nodup.filter _ (hvf r (List.mem_cons_self r ws)).1)
            (List.mem_filter.mpr ⟨hf, hkeep⟩)
        have hrest : (grassFilter pat excl ws).count (joinPath r.1 f) = 0 :=
          List.count_eq_zero.mpr
            (not_mem_grassFilter_of_dir hvd' (fun x hx => (hvf' x hx).2)
              (hvd r (List.mem_cons_self r ws)).1 (hvd r (List.mem_cons_self r ws)).2
              ((hvf r (List.mem_cons_self r ws)).2 f hf) hwnot)
        rw [hblock, hrest]
      · have hblock :
            ((w.2.filter (keepFile pat excl)).map (joinPath w.1)).count (joinPath r.1 f) = 0 := by
          apply List.count_eq_zero.mpr
          intro hmem
          rcases List.mem_map.mp hmem with ⟨g, hgfilt, heq⟩
          have hgf : g = f :=
            joinPath_fname_inj
              ((hvf w (List.mem_cons_self w ws)).2 g (List.mem_filter.mp hgfilt).1)
              ((hvf' r hr').2 f hf) heq
          subst hgf
          have : w.1 = r.1 :=
            joinPath_dir_inj (hvd w (List.mem_cons_self w ws)).1
              (hvd w (List.mem_cons_self w ws)).2
              (hvd' r hr').1 (hvd' r hr').2 ((hvf' r hr').2 g hf) heq
          exact hwnot (this ▸ List.mem_map.mpr ⟨r, hr', rfl⟩)
        rw [hblock, ih hwsnodup hvd' hvf' r hr' f hf hkeep]

/-! ## Copy lemmas -/

lemma fsGet_fsSet_self (fs : FS) (p c : String) : fsGet (fsSet fs p c) p = some c := by
  simp [fsGet, fsSet, List.lookup]

lemma fsGet_fsSet_ne (fs : FS) (p c q : String) (h : q ≠ p) :
    fsGet (fsSet fs p c) q = fsGet fs q := by
  simp [fsGet, fsSet, List.lookup, beq_eq_false_iff_ne.mpr h]

lemma fsExists_fsSet_mono {fs : FS} {p c q : String} (h : fsExists fs q = true) :
    fsExists (fsSet fs p c) q = true := by
  by_cases hq : q = p
  · subst hq
    simp [fsExists, fsGet_fsSet_self]
  · rw [fsExists, fsGet_fsSet_ne fs p c q hq]
    exact h

lemma copyStep_eq (e : String) (repl : Bool) (fs : FS) (old : String) :
    copyStep e repl fs old =
      if (!fsExists fs (joinPath e (destName old)) || repl) = true then
        shutilCopy fs old (joinPath e (destName old))
      else some fs := rfl

lemma shutilCopy_eq (fs : FS) (old new : String) :
    shutilCopy fs old new =
      if old = new then none else (fsGet fs old).map (fun c => fsSet fs new c) := rfl

lemma copyStep_noreplace {e : String} {fs : FS} {old : String}
    (hsrc : fsExists fs old = true) :
    ∃ fs1, copyStep e false fs old = some fs1 ∧
      (∀ p, fsExists fs p = true → fsExists fs1 p = true) ∧
      (∀ p, fsExists fs p = true → fsGet fs1 p = fsGet fs p) ∧
      fsExists fs1 (joinPath e (destName old)) = true := by
  rcases Option.isSome_iff_exists.mp hsrc with ⟨c, hc⟩
  by_cases hex : fsExists fs (joinPath e (destName old)) = true
  · refine ⟨fs, ?_, fun p hp => hp, fun p _ => rfl, hex⟩
    rw [copyStep_eq, if_neg]
    simp [hex]
  · have hne : old ≠ joinPath e (destName old) := by
      intro hcontra
      rw [hcontra] at hsrc
      exact hex hsrc
    refine ⟨fsSet fs (joinPath e (destName old)) c, ?_, ?_, ?_, ?_⟩
    · rw [copyStep_eq, if_pos (by simp [hex]), shutilCopy_eq, if_neg hne, hc]
      rfl
    · exact fun p hp => fsExists_fsSet_mono hp
    · intro p hp
      have hpne : p ≠ joinPath e (destName old) := by
        intro hcontra
        rw [hcontra] at hp
        exact hex hp
      exact fsGet_fsSet_ne fs _ c p hpne
    · simp [fsExists, fsGet_fsSet_self]

lemma copyFiles_noreplace {e : String} : ∀ (files : List String) (fs : FS),
    (∀ f ∈ files, fsExists fs f = true) →
    ∃ fs', copyFiles e false files fs = some fs' ∧
      (∀ p, fsExists fs p = true → fsExists fs' p = true) ∧
      (∀ p, fsExists fs p = true → fsGet fs' p = fsGet fs p) ∧
      (∀ f ∈ files, fsExists fs' (joinPath e (destName f)) = true)
  | [], fs, _ => ⟨fs, rfl, fun _ hp => hp, fun _ _ => rfl, by simp⟩
  | f :: rest, fs, hsrc => by
      rcases copyStep_noreplace (hsrc f (List.mem_cons_self f rest)) with
        ⟨fs1, hstep, hmono1, hpres1, hdest1⟩
      rcases copyFiles_noreplace rest fs1
          (fun g hg => hmono1 g (hsrc g (List.mem_cons_of_mem f hg))) with
        ⟨fs', hrun, hmono2, hpres2, hdest2⟩
      refine ⟨fs', ?_, ?_, ?_, ?_⟩
      · show (match copyStep e false fs f with
              | none => none
              | some fsx => copyFiles e false rest fsx) = some fs'
        rw [hstep]
        exact hrun
      · exact fun p hp => hmono2 p (hmono1 p hp)
      · intro p hp
        rw [hpres2 p (hmono1 p hp), hpres1 p hp]
      · intro g hg
        rcases List.mem_cons.mp hg with rfl | hg'
        · exact hmono2 _ hdest1
        · exact hdest2 g hg'

lemma copyFiles_skip {e : String} : ∀ (files : List String) (fs : FS),
    (∀ f ∈ files, fsExists fs (joinPath e (destName f)) = true) →
    copyFiles e false files fs = some fs
  | [], _, _ => rfl
  | f :: rest, fs, h => by
      have hstep : copyStep e false fs f = some fs := by
        rw [copyStep_eq, if_neg]
        simp [h f (List.mem_cons_self f rest)]
      show (match copyStep e false fs f with
            | none => none
            | some fsx => copyFiles e false rest fsx) = some fs
      rw [hstep]
      exact copyFiles_skip rest fs (fun g hg => h g (List.mem_cons_of_mem f hg))

lemma copyStep_frame {e : String} {repl : Bool} {fs fs' : FS} {old : String}
    (h : copyStep e repl fs old = some fs') :
    (∀ p, fsExists fs p = true → fsExists fs' p = true) ∧
    (∀ p, p ≠ joinPath e (destName old) → fsGet fs' p = fsGet fs p) := by
  rw [copyStep_eq] at h
  by_cases hcond : (!fsExists fs (joinPath e (destName old)) || repl) = true
  · rw [if_pos hcond, shutilCopy_eq] at h
    by_cases hne : old = joinPath e (destName old)
    · rw [if_pos hne] at h
      exact absurd h (by simp)
    · rw [if_neg hne] at h
      cases hold : fsGet fs old with
      | none =>
          rw [hold] at h
          exact absurd h (by simp)
      | some c =>
          rw [hold] at h
          have hfs' : fsSet fs (joinPath e (destName old)) c = fs' := by
            simpa using h
          subst hfs'
          exact ⟨fun p hp => fsExists_fsSet_mono hp,
            fun p hp => fsGet_fsSet_ne fs _ c p hp⟩
  · rw [if_neg hcond] at h
    have hfs' : fs = fs' := by simpa using h
    subst hfs'
    exact ⟨fun _ hp => hp, fun _ _ => rfl⟩

lemma copyFiles_frame {e : String} {repl : Bool} : ∀ {files : List String} {fs fs' : FS},
    copyFiles e repl files fs = some fs' →
    (∀ p, fsExists fs p = true → fsExists fs' p = true) ∧
    (∀ p, (∀ f ∈ files, joinPath e (destName f) ≠ p) → fsGet fs' p = fsGet fs p) := by
  intro files
  induction files with
  | nil =>
      intro fs fs' h
      have hfs' : fs = fs' := by simpa [copyFiles] using h
      subst hfs'
      exact ⟨fun _ hp => hp, fun _ _ => rfl⟩
  | cons f rest ih =>
      intro fs fs' h
      have hmatch : (match copyStep e repl fs f with
          | none => none
          | some fsx => copyFiles e repl rest fsx) = some fs' := h
      cases hstep : copyStep e repl fs f with
      | none =>
          rw [hstep] at hmatch
          exact absurd hmatch (by simp)
      | some fs1 =>
          rw [hstep] at hmatch
          rcases copyStep_frame hstep with ⟨hmono1, hframe1⟩
          rcases ih hmatch with ⟨hmono2, hframe2⟩
          refine ⟨fun p hp => hmono2 p (hmono1 p hp), ?_⟩
          intro p hp
          rw [hframe2 p (fun g hg => hp g (List.mem_cons_of_mem f hg)),
            hframe1 p (fun hc => hp f (List.mem_cons_self f rest) hc.symm)]

lemma copyFiles_replace {e : String} : ∀ (files : List String) (fs : FS),
    (∀ f ∈ files, fsExists fs f = true) →
    (files.map fun f => joinPath e (destName f)).Nodup →
    (∀ f ∈ files, ∀ g ∈ files, joinPath e (destName f) ≠ g) →
    ∃ fs', copyFiles e true files fs = some fs' ∧
      ∀ f ∈ files,
        fsGet fs' (joinPath e (destName f)) = fsGet fs f ∧ fsGet fs' f = fsGet fs f
  | [], fs, _, _, _ => ⟨fs, rfl, by simp⟩
  | f :: rest, fs, hsrc, hinj, hdisj => by
      rcases Option.isSome_iff_exists.mp (hsrc f (List.mem_cons_self f rest)) with ⟨c, hc⟩
      have hne : f ≠ joinPath e (destName f) :=
        fun hcontra =>
          hdisj f (List.mem_cons_self f rest) f (List.mem_cons_self f rest) hcontra.symm
      have hstep : copyStep e true fs f =
          some (fsSet fs (joinPath e (destName f)) c) := by
        rw [copyStep_eq, if_pos (by simp), shutilCopy_eq, if_neg hne, hc]
        rfl
      rw [List.map_cons] at hinj
      rcases List.nodup_cons.mp hinj with ⟨hheadnot, hrestnodup⟩
      have hdisj' : ∀ a ∈ rest, ∀ b ∈ rest, joinPath e (destName a) ≠ b :=
        fun a ha b hb =>
          hdisj a (List.mem_cons_of_mem f ha) b (List.mem_cons_of_mem f hb)
      rcases copyFiles_replace rest (fsSet fs (joinPath e (destName f)) c)
          (fun g hg => fsExists_fsSet_mono (hsrc g (List.mem_cons_of_mem f hg)))
          hrestnodup hdisj' with ⟨fs', hrun, hprops⟩
      refine ⟨fs', ?_, ?_⟩
      · show (match copyStep e true fs f with
              | none => none
              | some fsx => copyFiles e true rest fsx) = some fs'
        rw [hstep]
        exact hrun
      · intro g hg
        rcases copyFiles_frame hrun with ⟨_, hframe⟩
        rcases List.mem_cons.mp hg with rfl | hg'
        · constructor
          · rw [hframe (joinPath e (destName g))
              (fun a ha hc2 => hheadnot (hc2 ▸ List.mem_map.mpr ⟨a, ha, rfl⟩)),
              fsGet_fsSet_self, hc]
          · rw [hframe g
              (fun a ha => hdisj a (List.mem_cons_of_mem g ha) g (List.mem_cons_self g rest)),
              fsGet_fsSet_ne fs _ c g hne]
        · have hgne : g ≠ joinPath e (destName f) := by
            intro hcontra
            exact hdisj f (List.mem_cons_self f rest) g (List.mem_cons_of_mem f hg')
              hcontra.symm
          rcases hprops g hg' with ⟨h1, h2⟩
          rw [fsGet_fsSet_ne fs _ c g hgne] at h1 h2
          exact ⟨h1, h2⟩

/-! ## Destination-resolution lemmas -/

lemma resolveFold_eq (ex : String → Bool) : ∀ (l : List String) (acc : Option String),
    l.foldl (fun a item => if ex (candidatePath item) then some (candidatePath item) else a)
        acc
      = (match lastMatch ex l with
         | some c => some (candidatePath c)
         | none => acc)
  | [], _ => rfl
  | c :: cs, acc => by
      rw [List.foldl_cons, resolveFold_eq ex cs]
      show _ = (match (match lastMatch ex cs with
                       | some x => some x
                       | none => if ex (candidatePath c) then some c else none) with
                | some x => some (candidatePath x)
                | none => acc)
      cases hlast : lastMatch ex cs with
      | some x => rfl
      | none =>
          by_cases hex : ex (candidatePath c) = true
          · rw [if_pos hex, if_pos hex]
          · rw [if_neg hex, if_neg hex]

lemma resolveExport_eq (ex : String → Bool) :
    resolveExport ex = (lastMatch ex candidates).map candidatePath := by
  rw [resolveExport, resolveFold_eq]
  cases lastMatch ex candidates <;> rfl

lemma lastMatch_isSome {ex : String → Bool} : ∀ {l : List String} {c : String},
    c ∈ l → ex (candidatePath c) = true → (lastMatch ex l).isSome = true
  | [], c, hmem, _ => absurd hmem (List.not_mem_nil c)
  | a :: t, c, hmem, hex => by
      show (match lastMatch ex t with
            | some x => some x
            | none => if ex (candidatePath a) then some a else none).isSome = true
      cases hlast : lastMatch ex t with
      | some x => rfl
      | none =>
          rcases List.mem_cons.mp hmem with rfl | hmem'
          · rw [if_pos hex]
            rfl
          · have hcontra := lastMatch_isSome hmem' hex
            rw [hlast] at hcontra
            exact absurd hcontra (by simp)

lemma lastMatch_none {ex : String → Bool} : ∀ {l : List String},
    (∀ c ∈ l, ex (candidatePath c) = false) → lastMatch ex l = none
  | [], _ => rfl
  | a :: t, h => by
      show (match lastMatch ex t with
            | some x => some x
            | none => if ex (candidatePath a) then some a else none) = none
      rw [lastMatch_none (fun c hc => h c (List.mem_cons_of_mem a hc)),
        if_neg (by simp [h a (List.mem_cons_self a t)])]

lemma grassifyInit_none_export {ex : String → Bool} {walk : List WalkRec} {input : String}
    {patArg : Option (String → Bool)} {exclArg : Option String}
    (hin : ex input = true) :
    grassifyInit ex walk input none patArg exclArg = Except.ok
      { import_path := input
        export_path := resolveExport ex
        files := grassFilter
          (match patArg with | none => defaultPattern | some p => p)
          (match exclArg with | none => defaultExclusion | some s => .str s) walk
        messaged := false } := by
  unfold grassifyInit
  rw [if_pos hin]
  exact rfl

/-- Shared core of the exclusion claims: an excluded filename is never the
basename of a path the filter returns. -/
lemma excluded_basename_ne {pat : String → Bool} {excl : Exclusion} {walk : List WalkRec}
    {f : String} (hvf : ∀ r ∈ walk, ∀ g ∈ r.2, '/' ∉ g.data) (hf : '/' ∉ f.data)
    (hx : exclMem excl f = true) :
    ∀ p ∈ grassFilter pat excl walk, basename p ≠ f := by
  intro p hp heq
  rcases mem_grassFilter.mp hp with ⟨r, hr, g, hg, hkeep, rfl⟩
  rw [basename_join r.1 g (hvf r hr g hg)] at heq
  subst heq
  rw [keepFile_not_excl hkeep] at hx
  exact absurd hx (by simp)


/-! ## Claim theorems -/

/-- Claim C1: for every discovered source file (a walk directory joined with a
slash-free filename), the destination filename computed by `copy` is the
source basename with its extension stripped (in the sense of
`os.path.splitext`) and every underscore replaced by a dot. -/
theorem c1_destination_naming (d f : String) (hf : '/' ∉ f.data) :
    destName (joinPath d f) = pyReplaceUnderscore (splitext f).1 := by
  unfold destName
  rw [basename_join d f hf]

/-- Witness for C1 at the design document's example: source basename
`i_dr_import.py` yields destination filename `i.dr.import`. -/
theorem c1_destination_naming_witness :
    '/' ∉ "i_dr_import.py".data ∧
    destName (joinPath "/pkg" "i_dr_import.py") = "i.dr.import" :=
  ⟨by decide,
    (c1_destination_naming "/pkg" "i_dr_import.py" (by decide)).trans (by decide)⟩

/-- Claim C2: over a well-formed walk (distinct directories, per-directory
duplicate-free slash-free filenames), every filename that matches the pattern,
is not excluded and ends in `.py` contributes its joined path exactly once;
the result lists matches in directory-walk order (it equals the order-exact
specification `discoverSpec`); and when nothing matches the result is the
empty list, not a failure. -/
theorem c2_discover_complete (pat : String → Bool) (excl : Exclusion) (walk : List WalkRec)
    (hd : (walk.map Prod.fst).Nodup)
    (hvd : ∀ r ∈ walk, r.1 ≠ "" ∧ r.1.data.getLast? ≠ some '/')
    (hvf : ∀ r ∈ walk, r.2.Nodup ∧ ∀ f ∈ r.2, '/' ∉ f.data) :
    (∀ r ∈ walk, ∀ f ∈ r.2, keepFile pat excl f = true →
        (grassFilter pat excl walk).count (joinPath r.1 f) = 1) ∧
    grassFilter pat excl walk = discoverSpec pat excl walk ∧
    ((∀ r ∈ walk, ∀ f ∈ r.2, keepFile pat excl f = false) →
        grassFilter pat excl walk = []) := by
  refine ⟨count_grassFilter_one hd hvd hvf, grassFilter_eq pat excl walk, ?_⟩
  intro hnone
  apply List.eq_nil_iff_forall_not_mem.mpr
  intro x hx
  rcases mem_grassFilter.mp hx with ⟨r, hr, f, hf, hkeep, _⟩
  rw [hnone r hr f hf] at hkeep
  exact absurd hkeep (by simp)

/-- Witness for C2 on the design document's scenario: directory `/pkg` with
`i_script.py`, `__init__.py`, `i_dr_import.py`, exclusion list
`['__init__.py']`, pattern accepting names ending in `.py`. -/
theorem c2_discover_complete_witness :
    (([(("/pkg" : String), ["i_script.py", "__init__.py", "i_dr_import.py"])]).map
        Prod.fst).Nodup ∧
    (grassFilter (fun f => pyEndswith f ".py") (Exclusion.list ["__init__.py"])
        [("/pkg", ["i_script.py", "__init__.py", "i_dr_import.py"])]).count
      (joinPath "/pkg" "i_script.py") = 1 ∧
    grassFilter (fun f => pyEndswith f ".py") (Exclusion.list ["__init__.py"])
        [("/pkg", ["i_script.py", "__init__.py", "i_dr_import.py"])] =
      ["/pkg/i_script.py", "/pkg/i_dr_import.py"] := by
  refine ⟨by decide, ?_, by decide⟩
  exact (c2_discover_complete (fun f => pyEndswith f ".py")
      (Exclusion.list ["__init__.py"])
      [("/pkg", ["i_script.py", "__init__.py", "i_dr_import.py"])]
      (by decide) (by decide) (by decide)).1
    ("/pkg", ["i_script.py", "__init__.py", "i_dr_import.py"]) (by decide)
    "i_script.py" (by decide) (by decide)

/-- Claim C3: a filename in the exclusion set never appears in the filter
result — no returned path has it as basename — even when it matches the
pattern and ends with the extension. -/
theorem c3_excluded_never_appears (pat : String → Bool) (excl : Exclusion)
    (walk : List WalkRec) (f : String)
    (hvf : ∀ r ∈ walk, ∀ g ∈ r.2, '/' ∉ g.data)
    (hf : '/' ∉ f.data)
    (hx : exclMem excl f = true) :
    ∀ p ∈ grassFilter pat excl walk, basename p ≠ f :=
  excluded_basename_ne hvf hf hx

/-- Witness for C3: with the default exclusion list, `setup.py` never appears
even though it matches the pattern and ends in `.py`. -/
theorem c3_excluded_never_appears_witness :
    exclMem defaultExclusion "setup.py" = true ∧
    ∀ p ∈ grassFilter (fun f => pyEndswith f ".py") defaultExclusion
        [("/d", ["setup.py", "a_b.py"])], basename p ≠ "setup.py" :=
  ⟨by decide,
    c3_excluded_never_appears (fun f => pyEndswith f ".py") defaultExclusion
      [("/d", ["setup.py", "a_b.py"])] "setup.py" (by decide) (by decide) (by decide)⟩

/-- Counterexample to Claim C4 as stated: with no explicit export path and no
existing candidate directory, construction does NOT fail fatally — `__init__`
returns normally, merely leaving the export attribute unassigned
(`export_path = none`). -/
theorem c4_counterexample :
    grassifyInit (fun p => p == "/input") [] "/input" none none none =
      Except.ok { import_path := "/input", export_path := none,
                  files := [], messaged := false } := by
  rfl

/-- Claim C4 as amended: when no explicit export path is supplied and none of
the candidate directories exists, construction completes normally with the
destination left unresolved (the `export_path` attribute is never assigned);
no fatal abort occurs. -/
theorem c4_amended_no_fatal (ex : String → Bool) (walk : List WalkRec) (input : String)
    (patArg : Option (String → Bool)) (exclArg : Option String)
    (hin : ex input = true)
    (hno : ∀ c ∈ candidates, ex (candidatePath c) = false) :
    ∃ g, grassifyInit ex walk input none patArg exclArg = Except.ok g ∧
      g.export_path = none := by
  refine ⟨_, grassifyInit_none_export hin, ?_⟩
  show resolveExport ex = none
  rw [resolveExport_eq, lastMatch_none hno]
  rfl

/-- Witness for the amended C4 at a concrete existence oracle under which only
the input directory exists. -/
theorem c4_amended_no_fatal_witness :
    ((fun p => p == "/input") "/input" : Bool) = true ∧
    ∃ g, grassifyInit (fun p => p == "/input") [] "/input" none none none =
        Except.ok g ∧ g.export_path = none :=
  ⟨by decide, c4_amended_no_fatal (fun p => p == "/input") [] "/input" none none
    (by decide) (by decide)⟩

/-- Claim C5, documenting the code bug: when the walk yields no matching
files, the run still completes normally with exit code 0, but the
informational message is NOT emitted — `self.files is []` compares object
identity against a fresh list literal and is false even for an empty result,
so `messaged` is `false`. -/
theorem c5_no_message_but_exit_zero :
    ∃ g, grassifyInit (fun p => p == "/input") [] "/input" none none none =
        Except.ok g ∧
      g.files = [] ∧ g.messaged = false ∧ mainExit g false false [] = Except.ok 0 :=
  ⟨{ import_path := "/input", export_path := none, files := [], messaged := false },
    rfl, rfl, rfl, rfl⟩

/-- Claim C6: with `replace = false`, running `copy` once from a filesystem in
which every discovered source exists succeeds; running it a second time from
the same file list leaves the filesystem exactly as after the first run; and
every file that existed before the first run — in particular a destination
file that was already present — is left untouched, with no error raised. -/
theorem c6_idempotent_noreplace (e : String) (files : List String) (fs : FS)
    (hsrc : ∀ f ∈ files, fsExists fs f = true) :
    ∃ fs1, copyFiles e false files fs = some fs1 ∧
      copyFiles e false files fs1 = some fs1 ∧
      ∀ p, fsExists fs p = true → fsGet fs1 p = fsGet fs p := by
  rcases copyFiles_noreplace files fs hsrc with ⟨fs1, hrun, _, hpres, hdest⟩
  exact ⟨fs1, hrun, copyFiles_skip files fs1 hdest, hpres⟩

/-- Witness for C6: the destination `/dest/a.b` already exists with content
`keep`; copying `/d/a_b.py` with `replace = false` succeeds and leaves it
untouched, and a second run changes nothing. -/
theorem c6_idempotent_noreplace_witness :
    (∀ f ∈ ["/d/a_b.py"],
        fsExists [("/d/a_b.py", "s1"), ("/dest/a.b", "keep")] f = true) ∧
    ∃ fs1, copyFiles "/dest" false ["/d/a_b.py"]
          [("/d/a_b.py", "s1"), ("/dest/a.b", "keep")] = some fs1 ∧
      copyFiles "/dest" false ["/d/a_b.py"] fs1 = some fs1 ∧
      ∀ p, fsExists [("/d/a_b.py", "s1"), ("/dest/a.b", "keep")] p = true →
        fsGet fs1 p = fsGet [("/d/a_b.py", "s1"), ("/dest/a.b", "keep")] p :=
  ⟨by decide, c6_idempotent_noreplace "/dest" ["/d/a_b.py"]
    [("/d/a_b.py", "s1"), ("/dest/a.b", "keep")] (by decide)⟩

/-- Counterexample to Claim C7 as stated: two discovered files `a_b.py` and
`a.b.py` map to the same destination name `a.b`; after `copy` with
`replace = true` the destination holds the second source's content `s2`, so
the first discovered file's destination content (`s2`) differs from its own
content (`s1`). -/
theorem c7_counterexample :
    copyFiles "/dest" true ["/d/a_b.py", "/d/a.b.py"]
        [("/d/a_b.py", "s1"), ("/d/a.b.py", "s2")] =
      some [("/dest/a.b", "s2"), ("/dest/a.b", "s1"),
            ("/d/a_b.py", "s1"), ("/d/a.b.py", "s2")] ∧
    joinPath "/dest" (destName "/d/a_b.py") = "/dest/a.b" ∧
    joinPath "/dest" (destName "/d/a.b.py") = "/dest/a.b" ∧
    fsGet [("/dest/a.b", "s2"), ("/dest/a.b", "s1"),
           ("/d/a_b.py", "s1"), ("/d/a.b.py", "s2")] "/dest/a.b" = some "s2" ∧
    fsGet [("/d/a_b.py", "s1"), ("/d/a.b.py", "s2")] "/d/a_b.py" = some "s1" := by
  decide

/-- Claim C7 as amended: when no two discovered files map to the same
destination path and no destination path coincides with a source path, after
`copy` with `replace = true` every discovered file's destination exists and
holds exactly the source file's content. -/
theorem c7_replace_content (e : String) (files : List String) (fs : FS)
    (hsrc : ∀ f ∈ files, fsExists fs f = true)
    (hinj : (files.map fun f => joinPath e (destName f)).Nodup)
    (hdisj : ∀ f ∈ files, ∀ g ∈ files, joinPath e (destName f) ≠ g) :
    ∃ fs', copyFiles e true files fs = some fs' ∧
      ∀ f ∈ files,
        fsExists fs' (joinPath e (destName f)) = true ∧
        fsGet fs' (joinPath e (destName f)) = fsGet fs f ∧
        fsGet fs' f = fsGet fs f := by
  rcases copyFiles_replace files fs hsrc hinj hdisj with ⟨fs', hrun, hprops⟩
  refine ⟨fs', hrun, fun f hf => ?_⟩
  rcases hprops f hf with ⟨h1, h2⟩
  refine ⟨?_, h1, h2⟩
  show (fsGet fs' (joinPath e (destName f))).isSome = true
  rw [h1]
  exact hsrc f hf

/-- Witness for the amended C7 on a collision-free, disjoint run. -/
theorem c7_replace_content_witness :
    (∀ f ∈ ["/d/a_b.py"], fsExists [("/d/a_b.py", "s1")] f = true) ∧
    ∃ fs', copyFiles "/dest" true ["/d/a_b.py"] [("/d/a_b.py", "s1")] = some fs' ∧
      ∀ f ∈ ["/d/a_b.py"],
        fsExists fs' (joinPath "/dest" (destName f)) = true ∧
        fsGet fs' (joinPath "/dest" (destName f)) = fsGet [("/d/a_b.py", "s1")] f ∧
        fsGet fs' f = fsGet [("/d/a_b.py", "s1")] f :=
  ⟨by decide, c7_replace_content "/dest" ["/d/a_b.py"] [("/d/a_b.py", "s1")]
    (by decide) (by decide) (by decide)⟩

/-- Claim C8: when no explicit export path is supplied and at least one
candidate directory exists, construction succeeds and the resolved
destination is the LAST existing candidate of the fixed list
`grass70 … grass74` (the loop keeps overwriting the attribute), expressed via
`lastMatch`. -/
theorem c8_last_candidate_wins (ex : String → Bool) (walk : List WalkRec) (input : String)
    (patArg : Option (String → Bool)) (exclArg : Option String)
    (hin : ex input = true) (c : String) (hc : c ∈ candidates)
    (hex : ex (candidatePath c) = true) :
    ∃ g, grassifyInit ex walk input none patArg exclArg = Except.ok g ∧
      g.export_path = (lastMatch ex candidates).map candidatePath ∧
      g.export_path ≠ none := by
  refine ⟨_, grassifyInit_none_export hin, ?_, ?_⟩
  · show resolveExport ex = _
    exact resolveExport_eq ex
  · show resolveExport ex ≠ none
    rw [resolveExport_eq]
    have hs := lastMatch_isSome hc hex
    cases hlm : lastMatch ex candidates with
    | none =>
        rw [hlm] at hs
        exact absurd hs (by simp)
    | some x => simp

/-- Existence oracle for the C8 witness: the input directory and the
`grass70` and `grass72` script directories exist. -/
def exC8 : String → Bool := fun p =>
  p == "/input" || p == candidatePath "grass70" || p == candidatePath "grass72"

/-- Witness for C8: with `grass70` and `grass72` both present, the resolved
destination is `/usr/lib/grass72/scripts` — the last existing candidate, not
the first. -/
theorem c8_last_candidate_wins_witness :
    exC8 "/input" = true ∧
    "grass70" ∈ candidates ∧
    exC8 (candidatePath "grass70") = true ∧
    (lastMatch exC8 candidates).map candidatePath = some "/usr/lib/grass72/scripts" ∧
    ∃ g, grassifyInit exC8 [] "/input" none none none = Except.ok g ∧
      g.export_path = (lastMatch exC8 candidates).map candidatePath ∧
      g.export_path ≠ none :=
  ⟨by decide, by decide, by decide, by decide,
    c8_last_candidate_wins exC8 [] "/input" none none (by decide) "grass70"
      (by decide) (by decide)⟩

/-- Counterexample to Claim C9 as stated: with the export path equal to the
input directory `/d`, copying the discovered file `/d/a_b.py` with
`replace = true` overwrites the pre-existing file `/d/a.b` under the input
directory: its content changes from `s2` to `s1`. -/
theorem c9_counterexample :
    copyFiles "/d" true ["/d/a_b.py"] [("/d/a_b.py", "s1"), ("/d/a.b", "s2")] =
      some [("/d/a.b", "s1"), ("/d/a_b.py", "s1"), ("/d/a.b", "s2")] ∧
    fsGet [("/d/a_b.py", "s1"), ("/d/a.b", "s2")] "/d/a.b" = some "s2" ∧
    fsGet [("/d/a.b", "s1"), ("/d/a_b.py", "s1"), ("/d/a.b", "s2")] "/d/a.b" =
      some "s1" := by
  decide

/-- Claim C9 as amended: `copy` never deletes any file (every path existing
before still exists after), and it writes only destination paths — every path
that is not the transformed destination of a discovered file keeps its exact
content; in particular all source files are untouched whenever the
destination paths are disjoint from the input tree. -/
theorem c9_frame (e : String) (repl : Bool) (files : List String) (fs fs' : FS)
    (h : copyFiles e repl files fs = some fs') :
    (∀ p, fsExists fs p = true → fsExists fs' p = true) ∧
    (∀ p, (∀ f ∈ files, joinPath e (destName f) ≠ p) → fsGet fs' p = fsGet fs p) :=
  copyFiles_frame h

/-- Witness for the amended C9 on a disjoint run: the source file's content
and existence are preserved. -/
theorem c9_frame_witness :
    copyFiles "/dest" true ["/d/a_b.py"] [("/d/a_b.py", "s1")] =
      some [("/dest/a.b", "s1"), ("/d/a_b.py", "s1")] ∧
    ((∀ p, fsExists [("/d/a_b.py", "s1")] p = true →
        fsExists [("/dest/a.b", "s1"), ("/d/a_b.py", "s1")] p = true) ∧
      (∀ p, (∀ f ∈ ["/d/a_b.py"], joinPath "/dest" (destName f) ≠ p) →
        fsGet [("/dest/a.b", "s1"), ("/d/a_b.py", "s1")] p =
          fsGet [("/d/a_b.py", "s1")] p)) :=
  ⟨by decide, c9_frame "/dest" true ["/d/a_b.py"] [("/d/a_b.py", "s1")]
    [("/dest/a.b", "s1"), ("/d/a_b.py", "s1")] (by decide)⟩

/-- Counterexample to Claim C10 as stated: `init.py` is NOT a contiguous
substring of the exclusion string `__init__.py` (the characters after `init`
are `__`, not `.`), so a matching file named `init.py` is NOT excluded: it
appears in the filter result. -/
theorem c10_counterexample :
    pyInStr "init.py" "__init__.py" = false ∧
    grassFilter (fun f => pyEndswith f ".py") (Exclusion.str "__init__.py")
        [("/d", ["init.py"])] = ["/d/init.py"] := by
  decide

/-- Claim C10 as amended: when the caller supplies a string exclusion, the
test is substring containment — every filename occurring as a contiguous
substring of the exclusion string is excluded from the result even when it is
not equal to the whole string (for example `init__.py` with exclusion
`__init__.py`); but `init.py` is not such a substring and is not excluded. -/
theorem c10_substring_exclusion (pat : String → Bool) (s : String) (walk : List WalkRec)
    (f : String)
    (hvf : ∀ r ∈ walk, ∀ g ∈ r.2, '/' ∉ g.data)
    (hf : '/' ∉ f.data)
    (hsub : pyInStr f s = true) :
    ∀ p ∈ grassFilter pat (Exclusion.str s) walk, basename p ≠ f :=
  excluded_basename_ne hvf hf hsub

/-- Witness for the amended C10: `init__.py` is a substring of `__init__.py`
and never appears in the result, even though it matches the pattern and ends
in `.py`. -/
theorem c10_substring_exclusion_witness :
    pyInStr "init__.py" "__init__.py" = true ∧
    ∀ p ∈ grassFilter (fun f => pyEndswith f ".py") (Exclusion.str "__init__.py")
        [("/d", ["init__.py", "other_x.py"])], basename p ≠ "init__.py" :=
  ⟨by decide,
    c10_substring_exclusion (fun f => pyEndswith f ".py") "__init__.py"
      [("/d", ["init__.py", "other_x.py"])] "init__.py"
      (by decide) (by decide) (by decide)⟩
